import Mathlib

/-!
Verification of the BFGS optimizer implemented in `ex1-5.ipynb`.

The notebook defines
* `bfgs_step(f, df, x, search_direction, method, armijo_param)` — the
  step-size ("line search") subroutine with methods `"full"`, `"exact"`,
  `"Armijo"`;
* `bfgs(f, x0, method, armijo_param, max_iter, tol, save_history)` — the
  BFGS iteration loop with the inverse-Hessian approximation update;
* `class BFGSOutput` — the result record, whose `__init__` sets `x`, `fx`,
  `converged`, `iter`, and whose `add_history` attaches `history` afterwards.

The embedding below models vectors as `Fin n → ℚ` (real arithmetic on exact
rationals), matrices as `Fin n → Fin n → ℚ`, and translates each function
of the notebook directly.  The gradient evaluator `df` (produced in the
source by the external `autograd.grad`) and scipy's `minimize_scalar`
(used by the `"exact"` branch) are external collaborators and are passed
as explicit parameters.  The unbounded Armijo `while` loop is given a fuel
parameter; `none` means the loop did not finish within the fuel.

A second embedding (`EScalar := Option ℚ`, suffix `E`) models IEEE
non-finite propagation: `none` stands for a non-finite float (`inf`/`nan`),
`some a` for a finite value; every arithmetic operation involving a
non-finite value is non-finite, and division by zero is non-finite.  It is
used for the degenerate-secant-pair claim.
-/

namespace BFGSVerify

/-- Vectors: 1-D numpy arrays of length `n`, entries modelled as `ℚ`. -/
abbrev Vec (n : ℕ) := Fin n → ℚ

/-- Matrices: 2-D numpy arrays of shape `n × n`. -/
abbrev Mat (n : ℕ) := Fin n → Fin n → ℚ

/-- `np.dot(v, w)` for 1-D arrays. -/
def dot {n : ℕ} (v w : Vec n) : ℚ :=
  ((List.finRange n).map fun i => v i * w i).sum

/-- elementwise vector addition. -/
def vadd {n : ℕ} (v w : Vec n) : Vec n := fun i => v i + w i

/-- elementwise vector subtraction. -/
def vsub {n : ℕ} (v w : Vec n) : Vec n := fun i => v i - w i

/-- scalar–vector product. -/
def smulV {n : ℕ} (c : ℚ) (v : Vec n) : Vec n := fun i => c * v i

/-- vector negation. -/
def negV {n : ℕ} (v : Vec n) : Vec n := fun i => - v i

/-- matrix–vector product `A @ v`. -/
def matVec {n : ℕ} (A : Mat n) (v : Vec n) : Vec n := fun i => dot (A i) v

/-- matrix–matrix product `A @ B`. -/
def matMul {n : ℕ} (A B : Mat n) : Mat n :=
  fun i j => ((List.finRange n).map fun k => A i k * B k j).sum

/-- scalar–matrix product (numpy's `H_inv *= c` rescaling). -/
def smulM {n : ℕ} (c : ℚ) (A : Mat n) : Mat n := fun i j => c * A i j

/-- entrywise matrix subtraction. -/
def matSub {n : ℕ} (A B : Mat n) : Mat n := fun i j => A i j - B i j

/-- `np.eye(n)`. -/
def eye (n : ℕ) : Mat n := fun i j => if i = j then 1 else 0

/-- the `n × n` all-ones matrix `U` (spec side, for the constant-update claim). -/
def onesMat (n : ℕ) : Mat n := fun _ _ => 1

/-- squared Euclidean norm. -/
def sqNorm {n : ℕ} (v : Vec n) : ℚ := dot v v

/-- `la.norm(v) < t` (Euclidean norm).  Over the reals
`‖v‖ < t ↔ 0 < t ∧ ‖v‖ ^ 2 < t ^ 2`, which avoids the irrational square
root; `normLt_iff_sqrt_lt` below proves the equivalence. -/
def normLt {n : ℕ} (v : Vec n) (t : ℚ) : Prop := 0 < t ∧ sqNorm v < t * t

instance normLtDecidable {n : ℕ} (v : Vec n) (t : ℚ) : Decidable (normLt v t) := by
  unfold normLt; infer_instance

lemma sqNorm_nonneg {n : ℕ} (v : Vec n) : 0 ≤ sqNorm v := by
  unfold sqNorm dot
  refine List.sum_nonneg ?_
  intro x hx
  rcases List.mem_map.1 hx with ⟨i, _, rfl⟩
  exact mul_self_nonneg _

/-- Faithfulness of `normLt`: it is exactly the source's Euclidean-norm
comparison `sqrt (Σ vᵢ²) < t`, carried out over `ℝ`. -/
lemma normLt_iff_sqrt_lt {n : ℕ} (v : Vec n) (t : ℚ) :
    normLt v t ↔ Real.sqrt ((sqNorm v : ℚ) : ℝ) < (t : ℝ) := by
  constructor
  · rintro ⟨ht, hlt⟩
    have ht' : (0 : ℝ) < (t : ℝ) := by exact_mod_cast ht
    have hlt' : ((sqNorm v : ℚ) : ℝ) < (t : ℝ) ^ 2 := by
      have : ((sqNorm v : ℚ) : ℝ) < ((t * t : ℚ) : ℝ) := by exact_mod_cast hlt
      simpa [sq, Rat.cast_mul] using this
    calc Real.sqrt ((sqNorm v : ℚ) : ℝ) < Real.sqrt ((t : ℝ) ^ 2) := by
          refine Real.sqrt_lt_sqrt ?_ hlt'
          exact_mod_cast sqNorm_nonneg v
      _ = (t : ℝ) := Real.sqrt_sq ht'.le
  · intro h
    have hnn : (0 : ℝ) ≤ ((sqNorm v : ℚ) : ℝ) := by exact_mod_cast sqNorm_nonneg v
    have ht' : (0 : ℝ) < (t : ℝ) := lt_of_le_of_lt (Real.sqrt_nonneg _) h
    have ht : 0 < t := by exact_mod_cast ht'
    refine ⟨ht, ?_⟩
    have := Real.lt_sq_of_sqrt_lt h
    have h2 : ((sqNorm v : ℚ) : ℝ) < ((t * t : ℚ) : ℝ) := by
      push_cast
      calc ((sqNorm v : ℚ) : ℝ) < (t : ℝ) ^ 2 := this
        _ = (t : ℝ) * (t : ℝ) := sq (t : ℝ) ▸ (sq (t : ℝ)).symm ▸ by ring
    exact_mod_cast h2

/-- The `method` argument of `bfgs_step`: the strings
`"full"`, `"exact"`, `"Armijo"`. -/
inductive StepMethod
  | full
  | exact
  | armijo
deriving DecidableEq

/-- The `while` loop of the `"Armijo"` branch of `bfgs_step`:
`while line_search(alpha) > f(x) + armijo_param * alpha * np.dot(df(x), search_direction): alpha *= 0.5`.
The Python loop is unbounded; `fuel` bounds the number of halvings and
`none` means the loop did not finish within `fuel` steps. -/
def armijoLoop {n : ℕ} (f : Vec n → ℚ) (df : Vec n → Vec n) (x search_direction : Vec n)
    (armijo_param : ℚ) : ℕ → ℚ → Option ℚ
  | 0, _ => none
  | fuel + 1, alpha =>
    if f (vadd x (smulV alpha search_direction)) >
        f x + armijo_param * alpha * dot (df x) search_direction then
      armijoLoop f df x search_direction armijo_param fuel (alpha * (1 / 2))
    else
      some alpha

/-- `bfgs_step(f, df, x, search_direction, method, armijo_param)`.
The `"exact"` branch calls scipy's `minimize_scalar`.  Modelled from the
spec: that external univariate minimizer is an injected oracle `exactMin`
(the spec treats it as a derivative-free minimizer of the scalar
line-search function). -/
def bfgs_step {n : ℕ} (fuel : ℕ) (exactMin : (ℚ → ℚ) → ℚ) (f : Vec n → ℚ)
    (df : Vec n → Vec n) (x search_direction : Vec n) (method : StepMethod)
    (armijo_param : ℚ) : Option ℚ :=
  match method with
  | .full => some 1
  | .exact => some (exactMin fun alpha => f (vadd x (smulV alpha search_direction)))
  | .armijo => armijoLoop f df x search_direction armijo_param fuel 1

/-- The inverse-Hessian update line of `bfgs`:
`H_inv = (np.eye(n) - rho * p @ q.T) @ H_inv @ (np.eye(n) - rho * p @ q.T)`
with `rho = 1 / np.dot(p, q)`.  Note that `p` and `q` are 1-D arrays, so
numpy's `p @ q.T` is the scalar `np.dot(p, q)` (for 1-D arrays `.T` is a
no-op and `@` is the inner product), and the subtraction broadcasts that
scalar over every entry of `np.eye(n)`. -/
def bfgsUpdate {n : ℕ} (p q : Vec n) (H_inv : Mat n) : Mat n :=
  let rho := 1 / dot p q
  let A : Mat n := fun i j => eye n i j - rho * dot p q
  matMul (matMul A H_inv) A

/-- The body of one `bfgs` loop iteration after the convergence check:
direction, step size, iterate update, secant pair, first-iteration
rescaling, and the inverse-Hessian update.  Returns `none` only when the
Armijo loop ran out of fuel.  `iter` is the Python loop index (the
rescaling happens only when `iter == 0`). -/
def bfgsIter {n : ℕ} (fuel : ℕ) (exactMin : (ℚ → ℚ) → ℚ) (f : Vec n → ℚ)
    (df : Vec n → Vec n) (method : StepMethod) (armijo_param : ℚ)
    (iter : ℕ) (x : Vec n) (H_inv : Mat n) : Option (Vec n × Mat n) :=
  let search_direction := negV (matVec H_inv (df x))
  (bfgs_step fuel exactMin f df x search_direction method armijo_param).map
    fun step_size =>
      let x' := vadd x (smulV step_size search_direction)
      let p := vsub x' x
      let q := vsub (df x') (df x)
      let H1 := if iter = 0 then smulM (dot p q / dot q q) H_inv else H_inv
      (x', bfgsUpdate p q H1)

/-- The `for iter in range(max_iter)` loop of `bfgs`, as a recursion on the
number `k` of remaining iterations (`iter` is the current Python loop
index; the loop is entered with `iter = 0` and `k = max_iter`, so when the
loop completes without a break we have `iter = max_iter`, matching the
initialization `n_iter = max_iter`).  The returned tuple is
`(x, converged, n_iter, history)`. -/
def bfgsLoop {n : ℕ} (fuel : ℕ) (exactMin : (ℚ → ℚ) → ℚ) (f : Vec n → ℚ)
    (df : Vec n → Vec n) (method : StepMethod) (armijo_param : ℚ) (tol : ℚ)
    (save_history : Bool) :
    ℕ → ℕ → Vec n → Mat n → List (Vec n) → Option (Vec n × Bool × ℕ × List (Vec n))
  | iter, 0, x, _, history => some (x, false, iter, history)
  | iter, k + 1, x, H_inv, history =>
    let history' := if save_history then history ++ [x] else history
    if normLt (df x) tol then
      some (x, true, iter, history')
    else
      (bfgsIter fuel exactMin f df method armijo_param iter x H_inv).bind fun s =>
        bfgsLoop fuel exactMin f df method armijo_param tol save_history
          (iter + 1) k s.1 s.2 history'

/-- `class BFGSOutput`.  `history` is an attribute that exists only after
`add_history` has been called; modelled as an optional field. -/
structure BFGSOutput (n : ℕ) where
  x : Vec n
  fx : ℚ
  converged : Bool
  iter : ℕ
  history : Option (List (Vec n)) := none
deriving DecidableEq

/-- `BFGSOutput.__init__(self, x, fx, converged, iter)`: sets exactly those
four attributes; there is no `history` yet. -/
def BFGSOutput.init {n : ℕ} (x : Vec n) (fx : ℚ) (converged : Bool) (iter : ℕ) :
    BFGSOutput n :=
  { x := x, fx := fx, converged := converged, iter := iter }

/-- `BFGSOutput.add_history(self, history)`: the post-construction
attribute assignment `self.history = history`. -/
def BFGSOutput.add_history {n : ℕ} (o : BFGSOutput n) (history : List (Vec n)) :
    BFGSOutput n :=
  { o with history := some history }

/-- `bfgs(f, x0, method, armijo_param, max_iter, tol, save_history)`.
The gradient `df = grad(f)` is produced in the source by the external
automatic-differentiation collaborator `autograd.grad`; modelled from the
spec: the gradient evaluator is an opaque callable passed as a parameter.
Source defaults: `method = "Armijo"`, `armijo_param = 0.5`,
`max_iter = 20`, `tol = 1e-5`, `save_history = False`. -/
def bfgs {n : ℕ} (fuel : ℕ) (exactMin : (ℚ → ℚ) → ℚ) (f : Vec n → ℚ)
    (df : Vec n → Vec n) (x0 : Vec n) (method : StepMethod) (armijo_param : ℚ)
    (max_iter : ℕ) (tol : ℚ) (save_history : Bool) : Option (BFGSOutput n) :=
  (bfgsLoop fuel exactMin f df method armijo_param tol save_history
      0 max_iter x0 (eye n) []).map fun r =>
    let out := BFGSOutput.init r.1 (f r.1) r.2.1 r.2.2.1
    if save_history then out.add_history r.2.2.2 else out

/-! ### Non-finite-propagation embedding

The same code, with scalars `EScalar := Option ℚ`: `none` models a
non-finite IEEE float (`inf`/`nan`), `some a` a finite value.  Arithmetic
involving a non-finite operand is non-finite, division by zero is
non-finite, and an ordered comparison involving a non-finite operand is
false (the degenerate runs of interest produce `nan`-like values, for
which every IEEE comparison is false). -/

/-- a float that is either finite (`some`) or non-finite (`none`). -/
abbrev EScalar := Option ℚ

/-- addition with non-finite propagation. -/
def eadd : EScalar → EScalar → EScalar
  | some a, some b => some (a + b)
  | _, _ => none

/-- subtraction with non-finite propagation. -/
def esub : EScalar → EScalar → EScalar
  | some a, some b => some (a - b)
  | _, _ => none

/-- multiplication with non-finite propagation. -/
def emul : EScalar → EScalar → EScalar
  | some a, some b => some (a * b)
  | _, _ => none

/-- negation with non-finite propagation. -/
def eneg : EScalar → EScalar
  | some a => some (-a)
  | none => none

/-- division: division by zero or by/of a non-finite value is non-finite. -/
def ediv : EScalar → EScalar → EScalar
  | some a, some b => if b = 0 then none else some (a / b)
  | _, _ => none

/-- strict `<` comparison: false whenever an operand is non-finite. -/
def eltB : EScalar → EScalar → Bool
  | some a, some b => decide (a < b)
  | _, _ => false

/-- vectors over `EScalar`. -/
abbrev VecE (n : ℕ) := Fin n → EScalar

/-- matrices over `EScalar`. -/
abbrev MatE (n : ℕ) := Fin n → Fin n → EScalar

/-- sum of a list of `EScalar`s (non-finite if any summand is). -/
def esum (l : List EScalar) : EScalar := l.foldr eadd (some 0)

/-- `np.dot` over `EScalar`. -/
def dotE {n : ℕ} (v w : VecE n) : EScalar :=
  esum ((List.finRange n).map fun i => emul (v i) (w i))

/-- elementwise vector addition over `EScalar`. -/
def vaddE {n : ℕ} (v w : VecE n) : VecE n := fun i => eadd (v i) (w i)

/-- elementwise vector subtraction over `EScalar`. -/
def vsubE {n : ℕ} (v w : VecE n) : VecE n := fun i => esub (v i) (w i)

/-- scalar–vector product over `EScalar`. -/
def smulVE {n : ℕ} (c : EScalar) (v : VecE n) : VecE n := fun i => emul c (v i)

/-- vector negation over `EScalar`. -/
def negVE {n : ℕ} (v : VecE n) : VecE n := fun i => eneg (v i)

/-- matrix–vector product over `EScalar`. -/
def matVecE {n : ℕ} (A : MatE n) (v : VecE n) : VecE n := fun i => dotE (A i) v

/-- matrix–matrix product over `EScalar`. -/
def matMulE {n : ℕ} (A B : MatE n) : MatE n :=
  fun i j => esum ((List.finRange n).map fun k => emul (A i k) (B k j))

/-- scalar–matrix product over `EScalar`. -/
def smulME {n : ℕ} (c : EScalar) (A : MatE n) : MatE n := fun i j => emul c (A i j)

/-- `np.eye(n)` over `EScalar`. -/
def eyeE (n : ℕ) : MatE n := fun i j => if i = j then some 1 else some 0

/-- squared Euclidean norm over `EScalar`. -/
def sqNormE {n : ℕ} (v : VecE n) : EScalar := dotE v v

/-- `la.norm(v) < t` over `EScalar`: false whenever the norm is
non-finite (IEEE comparisons with `nan` are false; `inf < t` is false). -/
def normLtE {n : ℕ} (v : VecE n) (t : ℚ) : Bool :=
  match sqNormE v with
  | some s => decide (0 < t ∧ s < t * t)
  | none => false

/-- the Armijo `while` loop over `EScalar` (the step length `alpha` itself
stays an exact rational: it is only ever halved, starting from `1`). -/
def armijoLoopE {n : ℕ} (f : VecE n → EScalar) (df : VecE n → VecE n)
    (x search_direction : VecE n) (armijo_param : ℚ) : ℕ → ℚ → Option ℚ
  | 0, _ => none
  | fuel + 1, alpha =>
    if eltB (eadd (f x) (emul (some (armijo_param * alpha)) (dotE (df x) search_direction)))
        (f (vaddE x (smulVE (some alpha) search_direction))) then
      armijoLoopE f df x search_direction armijo_param fuel (alpha * (1 / 2))
    else
      some alpha

/-- `bfgs_step` over `EScalar`. -/
def bfgs_stepE {n : ℕ} (fuel : ℕ) (exactMin : (ℚ → EScalar) → EScalar)
    (f : VecE n → EScalar) (df : VecE n → VecE n) (x search_direction : VecE n)
    (method : StepMethod) (armijo_param : ℚ) : Option EScalar :=
  match method with
  | .full => some (some 1)
  | .exact => some (exactMin fun alpha => f (vaddE x (smulVE (some alpha) search_direction)))
  | .armijo => (armijoLoopE f df x search_direction armijo_param fuel 1).map some

/-- the inverse-Hessian update over `EScalar` (again `p @ q.T` is the
scalar `np.dot(p, q)`, broadcast over `np.eye(n)`). -/
def bfgsUpdateE {n : ℕ} (p q : VecE n) (H_inv : MatE n) : MatE n :=
  let rho := ediv (some 1) (dotE p q)
  let A : MatE n := fun i j => esub (eyeE n i j) (emul rho (dotE p q))
  matMulE (matMulE A H_inv) A

/-- one loop-body iteration of `bfgs` over `EScalar`. -/
def bfgsIterE {n : ℕ} (fuel : ℕ) (exactMin : (ℚ → EScalar) → EScalar)
    (f : VecE n → EScalar) (df : VecE n → VecE n) (method : StepMethod)
    (armijo_param : ℚ) (iter : ℕ) (x : VecE n) (H_inv : MatE n) :
    Option (VecE n × MatE n) :=
  let search_direction := negVE (matVecE H_inv (df x))
  (bfgs_stepE fuel exactMin f df x search_direction method armijo_param).map
    fun step_size =>
      let x' := vaddE x (smulVE step_size search_direction)
      let p := vsubE x' x
      let q := vsubE (df x') (df x)
      let H1 := if iter = 0 then smulME (ediv (dotE p q) (dotE q q)) H_inv else H_inv
      (x', bfgsUpdateE p q H1)

/-- the `for` loop of `bfgs` over `EScalar`. -/
def bfgsLoopE {n : ℕ} (fuel : ℕ) (exactMin : (ℚ → EScalar) → EScalar)
    (f : VecE n → EScalar) (df : VecE n → VecE n) (method : StepMethod)
    (armijo_param : ℚ) (tol : ℚ) (save_history : Bool) :
    ℕ → ℕ → VecE n → MatE n → List (VecE n) →
      Option (VecE n × Bool × ℕ × List (VecE n))
  | iter, 0, x, _, history => some (x, false, iter, history)
  | iter, k + 1, x, H_inv, history =>
    let history' := if save_history then history ++ [x] else history
    if normLtE (df x) tol then
      some (x, true, iter, history')
    else
      (bfgsIterE fuel exactMin f df method armijo_param iter x H_inv).bind fun s =>
        bfgsLoopE fuel exactMin f df method armijo_param tol save_history
          (iter + 1) k s.1 s.2 history'

/-- `BFGSOutput` over `EScalar`. -/
structure BFGSOutputE (n : ℕ) where
  x : VecE n
  fx : EScalar
  converged : Bool
  iter : ℕ
  history : Option (List (VecE n)) := none

/-- `bfgs` over `EScalar`. -/
def bfgsE {n : ℕ} (fuel : ℕ) (exactMin : (ℚ → EScalar) → EScalar)
    (f : VecE n → EScalar) (df : VecE n → VecE n) (x0 : VecE n)
    (method : StepMethod) (armijo_param : ℚ) (max_iter : ℕ) (tol : ℚ)
    (save_history : Bool) : Option (BFGSOutputE n) :=
  (bfgsLoopE fuel exactMin f df method armijo_param tol save_history
      0 max_iter x0 (eyeE n) []).map fun r =>
    let out : BFGSOutputE n :=
      { x := r.1, fx := f r.1, converged := r.2.1, iter := r.2.2.1 }
    if save_history then { out with history := some r.2.2.2 } else out

/-! ### Concrete objectives used by the claims -/

/-- the notebook's test objective `f(x) = x[0]**2 + x[1]**2`. -/
def exf (x : Vec 2) : ℚ := x 0 ^ 2 + x 1 ^ 2

/-- Modelled from the spec: `autograd.grad` (an external collaborator)
returns the mathematical gradient; for `exf` it is `(2 x0, 2 x1)`. -/
def exdf (x : Vec 2) : Vec 2 := fun i => 2 * x i

/-- a one-dimensional quadratic `v ↦ v 0 ^ 2`, used as a line-search
test objective. -/
def ex1f (v : Vec 1) : ℚ := v 0 ^ 2

/-- its gradient `v ↦ 2 v 0`. -/
def ex1df (v : Vec 1) : Vec 1 := fun _ => 2 * v 0

/-- a linear objective `v ↦ v 0` over `EScalar`; its gradient is constant,
so the very first secant pair has `dot(p, q) = 0` (the degenerate case the
spec describes). -/
def exlinE (v : VecE 1) : EScalar := v 0

/-- the (constant) gradient of `exlinE`. -/
def exlindfE (_ : VecE 1) : VecE 1 := fun _ => some 1

/-- concrete length-2 vector. -/
def vec2 (a b : ℚ) : Vec 2 := fun i => if i.val = 0 then a else b

/-- concrete length-1 vector. -/
def vec1 (a : ℚ) : Vec 1 := fun _ => a

/-- concrete 2×2 matrix (row major). -/
def mat2 (a b c d : ℚ) : Mat 2 :=
  fun i j => if i.val = 0 then (if j.val = 0 then a else b)
             else (if j.val = 0 then c else d)

/-! ### Unfolding and evaluation lemmas -/

lemma bfgsLoop_zero {n : ℕ} (fuel : ℕ) (em : (ℚ → ℚ) → ℚ) (f : Vec n → ℚ)
    (df : Vec n → Vec n) (m : StepMethod) (c tol : ℚ) (sh : Bool) (iter : ℕ)
    (x : Vec n) (H : Mat n) (hist : List (Vec n)) :
    bfgsLoop fuel em f df m c tol sh iter 0 x H hist = some (x, false, iter, hist) := rfl

lemma bfgsLoop_succ {n : ℕ} (fuel : ℕ) (em : (ℚ → ℚ) → ℚ) (f : Vec n → ℚ)
    (df : Vec n → Vec n) (m : StepMethod) (c tol : ℚ) (sh : Bool) (iter k : ℕ)
    (x : Vec n) (H : Mat n) (hist : List (Vec n)) :
    bfgsLoop fuel em f df m c tol sh iter (k + 1) x H hist =
      (if normLt (df x) tol then some (x, true, iter, if sh then hist ++ [x] else hist)
       else (bfgsIter fuel em f df m c iter x H).bind fun s =>
         bfgsLoop fuel em f df m c tol sh (iter + 1) k s.1 s.2
           (if sh then hist ++ [x] else hist)) := rfl

lemma bfgsLoop_step {n : ℕ} (fuel : ℕ) (em : (ℚ → ℚ) → ℚ) (f : Vec n → ℚ)
    (df : Vec n → Vec n) (m : StepMethod) (c tol : ℚ) (sh : Bool) (iter k : ℕ)
    (x x' : Vec n) (H H' : Mat n) (hist : List (Vec n))
    (hc : ¬ normLt (df x) tol)
    (hi : bfgsIter fuel em f df m c iter x H = some (x', H')) :
    bfgsLoop fuel em f df m c tol sh iter (k + 1) x H hist =
      bfgsLoop fuel em f df m c tol sh (iter + 1) k x' H'
        (if sh then hist ++ [x] else hist) := by
  rw [bfgsLoop_succ, if_neg hc, hi, Option.some_bind]

lemma bfgsLoop_stop {n : ℕ} (fuel : ℕ) (em : (ℚ → ℚ) → ℚ) (f : Vec n → ℚ)
    (df : Vec n → Vec n) (m : StepMethod) (c tol : ℚ) (sh : Bool) (iter k : ℕ)
    (x : Vec n) (H : Mat n) (hist : List (Vec n))
    (hc : normLt (df x) tol) :
    bfgsLoop fuel em f df m c tol sh iter (k + 1) x H hist =
      some (x, true, iter, if sh then hist ++ [x] else hist) := by
  rw [bfgsLoop_succ, if_pos hc]

/-- iteration 0 of the run on `exf` from `(1, 1)` with full steps:
`x` moves to `(-1, -1)` and (after the first-iteration rescale by
`16/32`) the degenerate update leaves `H_inv = I/2`. -/
lemma iter0_eq (fuel : ℕ) (em : (ℚ → ℚ) → ℚ) :
    bfgsIter fuel em exf exdf .full (1/2) 0 (vec2 1 1) (eye 2) =
      some (vec2 (-1) (-1), mat2 (1/2) 0 0 (1/2)) := by
  simp only [bfgsIter, bfgs_step, Option.map_some', Option.some.injEq, Prod.mk.injEq]
  refine ⟨?_, ?_⟩
  · funext i
    fin_cases i <;>
      norm_num [vadd, smulV, negV, matVec, dot, eye, exdf, vec2, List.finRange]
  · funext i j
    fin_cases i <;> fin_cases j <;>
      norm_num [bfgsUpdate, matMul, smulM, mat2, vadd, vsub, smulV, negV, matVec, dot, eye,
        exdf, vec2, List.finRange]

/-- iteration 1 of the same run: `x` moves to the origin, `H_inv` stays `I/2`. -/
lemma iter1_eq (fuel : ℕ) (em : (ℚ → ℚ) → ℚ) :
    bfgsIter fuel em exf exdf .full (1/2) 1 (vec2 (-1) (-1)) (mat2 (1/2) 0 0 (1/2)) =
      some (vec2 0 0, mat2 (1/2) 0 0 (1/2)) := by
  simp only [bfgsIter, bfgs_step, Option.map_some', Option.some.injEq, Prod.mk.injEq]
  refine ⟨?_, ?_⟩
  · funext i
    fin_cases i <;>
      norm_num [vadd, smulV, negV, matVec, dot, eye, exdf, vec2, mat2, List.finRange]
  · funext i j
    fin_cases i <;> fin_cases j <;>
      norm_num [bfgsUpdate, matMul, smulM, mat2, vadd, vsub, smulV, negV, matVec, dot, eye,
        exdf, vec2, List.finRange]

lemma check0 : ¬ normLt (exdf (vec2 1 1)) (1/100000) := by
  norm_num [normLt, sqNorm, dot, exdf, vec2, List.finRange]

lemma check1 : ¬ normLt (exdf (vec2 (-1) (-1))) (1/100000) := by
  norm_num [normLt, sqNorm, dot, exdf, vec2, List.finRange]

lemma check2 : normLt (exdf (vec2 0 0)) (1/100000) := by
  norm_num [normLt, sqNorm, dot, exdf, vec2, List.finRange]

/-- the full run on `exf` from `(1, 1)` with full steps and default
`max_iter = 20`, `tol = 1e-5`: it converges to the origin at iteration 2. -/
lemma quadRun_eq (fuel : ℕ) (em : (ℚ → ℚ) → ℚ) :
    bfgs fuel em exf exdf (vec2 1 1) .full (1/2) 20 (1/100000) false =
      some (BFGSOutput.init (vec2 0 0) (exf (vec2 0 0)) true 2) := by
  simp only [bfgs]
  rw [bfgsLoop_step fuel em exf exdf .full (1/2) (1/100000) false 0 19 _ _ _ _ _
        check0 (iter0_eq fuel em),
      bfgsLoop_step fuel em exf exdf .full (1/2) (1/100000) false 1 18 _ _ _ _ _
        check1 (iter1_eq fuel em),
      bfgsLoop_stop fuel em exf exdf .full (1/2) (1/100000) false 2 17 _ _ _ check2]
  simp [BFGSOutput.init]

/-- a single-iteration run (`max_iter = 1`) on `exf` from `(1, 1)` with
history saving: it stops at the cap with history `[(1, 1)]`. -/
lemma quadRun1_eq (fuel : ℕ) (em : (ℚ → ℚ) → ℚ) :
    bfgs fuel em exf exdf (vec2 1 1) .full (1/2) 1 (1/100000) true =
      some ((BFGSOutput.init (vec2 (-1) (-1)) (exf (vec2 (-1) (-1))) false 1).add_history
        [vec2 1 1]) := by
  simp only [bfgs]
  rw [bfgsLoop_step fuel em exf exdf .full (1/2) (1/100000) true 0 0 _ _ _ _ _
        check0 (iter0_eq fuel em),
      bfgsLoop_zero]
  simp [BFGSOutput.init, BFGSOutput.add_history]

/-! ### Claims C1, C2, C3, C9, C10 -/

/-- The inverse-Hessian update as §4.2h of the spec words it, with
`p ⊗ q` the genuine outer product of column `p` with row `q^T`
(formalised from the spec's words, to be compared with `bfgsUpdate`,
which is formalised from the code). -/
def bfgsUpdateOuter {n : ℕ} (p q : Vec n) (H_inv : Mat n) : Mat n :=
  let rho := 1 / dot p q
  let A : Mat n := fun i j => eye n i j - rho * (p i * q j)
  matMul (matMul A H_inv) A

/-- C1: the update the code applies is NOT the outer-product formula
`(I - rho * p ⊗ q) @ H_inv @ (I - rho * p ⊗ q)` stated by the claim: at
`p = q = (1, 0)`, `H_inv = I` the code's update (which broadcasts the
scalar `p @ q.T = dot(p, q)`) has entry `(0,0)` equal to `1`, while the
claimed formula gives `0`.  The code contradicts its own docstring
("Performs the BFGS optimization algorithm"): with 1-D `p`, `q`, numpy's
`p @ q.T` is a scalar, not the outer product the BFGS update needs. -/
theorem C1_outer_product_mismatch :
    bfgsUpdate (vec2 1 0) (vec2 1 0) (eye 2) 0 0 = 1 ∧
    bfgsUpdateOuter (vec2 1 0) (vec2 1 0) (eye 2) 0 0 = 0 ∧
    bfgsUpdate (vec2 1 0) (vec2 1 0) (eye 2) ≠ bfgsUpdateOuter (vec2 1 0) (vec2 1 0) (eye 2) := by
  have h1 : bfgsUpdate (vec2 1 0) (vec2 1 0) (eye 2) 0 0 = 1 := by
    norm_num [bfgsUpdate, matMul, eye, dot, vec2, List.finRange]
  have h2 : bfgsUpdateOuter (vec2 1 0) (vec2 1 0) (eye 2) 0 0 = 0 := by
    norm_num [bfgsUpdateOuter, matMul, eye, dot, vec2, List.finRange]
  refine ⟨h1, h2, fun h => ?_⟩
  rw [h, h2] at h1
  exact one_ne_zero h1.symm

/-- C2: since `p @ q.T` is the scalar `dot(p, q)`, whenever
`dot(p, q) ≠ 0` the applied update is `(I - U) @ H_inv @ (I - U)` with
`U` the all-ones matrix — a constant transformation independent of the
values of `p` and `q`. -/
theorem C2_update_is_constant {n : ℕ} (p q : Vec n) (H_inv : Mat n)
    (h : dot p q ≠ 0) :
    bfgsUpdate p q H_inv =
      matMul (matMul (matSub (eye n) (onesMat n)) H_inv) (matSub (eye n) (onesMat n)) := by
  have hA : (fun i j => eye n i j - 1 / dot p q * dot p q) = matSub (eye n) (onesMat n) := by
    funext i j
    rw [one_div, inv_mul_cancel₀ h]
    rfl
  simp only [bfgsUpdate, hA]

/-- C2 witness: at `n = 1`, `p = q = (1)`, `H_inv = I` the hypothesis
`dot(p, q) ≠ 0` holds and the constant-update identity follows. -/
theorem C2_witness :
    dot (vec1 1) (vec1 1) ≠ 0 ∧
    bfgsUpdate (vec1 1) (vec1 1) (eye 1) =
      matMul (matMul (matSub (eye 1) (onesMat 1)) (eye 1)) (matSub (eye 1) (onesMat 1)) := by
  have h : dot (vec1 1) (vec1 1) ≠ 0 := by norm_num [dot, vec1, List.finRange]
  exact ⟨h, C2_update_is_constant (vec1 1) (vec1 1) (eye 1) h⟩

/-- C3: on `f(x) = x0^2 + x1^2` from `x0 = (1, 1)` with full steps,
`tol = 1e-5` and the default `max_iter = 20`, the run converges
(`converged = true`), the final iterate is within tolerance of the origin
(here exactly the origin), and the iteration count is `2 < 10`. -/
theorem C3_quadratic_full_converges (fuel : ℕ) (em : (ℚ → ℚ) → ℚ) :
    ∃ r, bfgs fuel em exf exdf (vec2 1 1) .full (1/2) 20 (1/100000) false = some r ∧
      r.converged = true ∧ r.iter = 2 ∧ r.iter < 10 ∧
      normLt (vsub r.x (vec2 0 0)) (1/100000) ∧ r.x = vec2 0 0 := by
  refine ⟨_, quadRun_eq fuel em, rfl, rfl, by norm_num [BFGSOutput.init], ?_, rfl⟩
  norm_num [BFGSOutput.init, normLt, sqNorm, dot, vsub, vec2, List.finRange]

/-- C9: with `max_iter = 0`, for every objective, gradient, starting point,
method and tolerance, the run returns immediately with `converged = false`,
`n_iter = 0` and the initial iterate. -/
theorem C9_zero_max_iter {n : ℕ} (fuel : ℕ) (em : (ℚ → ℚ) → ℚ) (f : Vec n → ℚ)
    (df : Vec n → Vec n) (x0 : Vec n) (m : StepMethod) (c tol : ℚ) (sh : Bool) :
    ∃ r, bfgs fuel em f df x0 m c 0 tol sh = some r ∧
      r.converged = false ∧ r.iter = 0 ∧ r.x = x0 ∧ r.fx = f x0 := by
  cases sh <;> exact ⟨_, rfl, rfl, rfl, rfl, rfl⟩

/-- C10: with method `full`, `bfgs_step` returns exactly `1` for every
input, and evaluates the objective nowhere (its value does not depend on
the objective `f` at all). -/
theorem C10_full_step_is_one {n : ℕ} (fuel : ℕ) (em : (ℚ → ℚ) → ℚ)
    (f g : Vec n → ℚ) (df : Vec n → Vec n) (x d : Vec n) (c : ℚ) :
    bfgs_step fuel em f df x d .full c = some 1 ∧
    bfgs_step fuel em f df x d .full c = bfgs_step fuel em g df x d .full c :=
  ⟨rfl, rfl⟩

/-! ### Claims C4 and C5: result construction and history -/

/-- Loop invariant for history recording (`save_history = true`): the
result history extends the accumulator; on a mid-loop break at iteration
`ni` exactly `ni - iter + 1` entries were appended; when the cap is
reached exactly one entry per remaining iteration was appended; and the
first appended entry is the loop-entry iterate `x`. -/
lemma bfgsLoop_hist {n : ℕ} (fuel : ℕ) (em : (ℚ → ℚ) → ℚ) (f : Vec n → ℚ)
    (df : Vec n → Vec n) (m : StepMethod) (c tol : ℚ) :
    ∀ (k iter : ℕ) (x : Vec n) (H : Mat n) (hist : List (Vec n))
      (xf : Vec n) (cv : Bool) (ni : ℕ) (hf : List (Vec n)),
      bfgsLoop fuel em f df m c tol true iter k x H hist = some (xf, cv, ni, hf) →
      (∃ t, hf = hist ++ t) ∧
      (cv = true → iter ≤ ni ∧ ni - iter < k ∧ hf.length = hist.length + (ni - iter) + 1) ∧
      (cv = false → ni = iter + k ∧ hf.length = hist.length + k) ∧
      (1 ≤ k → ∃ t, hf = hist ++ x :: t) := by
  intro k
  induction k with
  | zero =>
    intro iter x H hist xf cv ni hf hloop
    rw [bfgsLoop_zero] at hloop
    obtain ⟨rfl, hcv, hni, hhf⟩ : x = xf ∧ false = cv ∧ iter = ni ∧ hist = hf := by
      simpa using hloop
    subst hcv; subst hni; subst hhf
    exact ⟨⟨[], by simp⟩, by simp, by simp, by omega⟩
  | succ k ih =>
    intro iter x H hist xf cv ni hf hloop
    rw [bfgsLoop_succ] at hloop
    by_cases hc : normLt (df x) tol
    · rw [if_pos hc] at hloop
      obtain ⟨rfl, hcv, hni, hhf⟩ : x = xf ∧ true = cv ∧ iter = ni ∧ hist ++ [x] = hf := by
        simpa using hloop
      subst hcv; subst hni; subst hhf
      refine ⟨⟨[x], rfl⟩, fun _ => ?_, by simp, fun _ => ⟨[], rfl⟩⟩
      refine ⟨le_refl _, by omega, ?_⟩
      simp [Nat.sub_self]
    · rw [if_neg hc] at hloop
      cases hstep : bfgsIter fuel em f df m c iter x H with
      | none => rw [hstep] at hloop; simp at hloop
      | some s =>
        rw [hstep, Option.some_bind, if_pos rfl] at hloop
        obtain ⟨⟨t0, ht0⟩, hconv, hcap, _⟩ :=
          ih (iter + 1) s.1 s.2 (hist ++ [x]) xf cv ni hf hloop
        have hlen : (hist ++ [x]).length = hist.length + 1 := by simp
        refine ⟨⟨x :: t0, by simpa using ht0⟩, ?_, ?_, fun _ => ⟨t0, by simpa using ht0⟩⟩
        · intro h
          obtain ⟨h1, h2, h3⟩ := hconv h
          rw [hlen] at h3
          exact ⟨by omega, by omega, by omega⟩
        · intro h
          obtain ⟨h1, h2⟩ := hcap h
          rw [hlen] at h2
          exact ⟨by omega, by omega⟩

/-- C5 (amended): with `save_history = true` the returned history has
length `n_iter + 1` on mid-loop convergence and length `max_iter` when
the cap is reached, and — provided `max_iter ≥ 1`, so that at least one
loop iteration runs — its first entry is the initial iterate.  (With
`max_iter = 0` the history is empty and has no first entry; see the
counterexample.) -/
theorem C5_history_contract {n : ℕ} (fuel : ℕ) (em : (ℚ → ℚ) → ℚ) (f : Vec n → ℚ)
    (df : Vec n → Vec n) (x0 : Vec n) (m : StepMethod) (c : ℚ) (max_iter : ℕ)
    (tol : ℚ) (r : BFGSOutput n)
    (hr : bfgs fuel em f df x0 m c max_iter tol true = some r) :
    ∃ h, r.history = some h ∧
      (r.converged = true → h.length = r.iter + 1) ∧
      (r.converged = false → h.length = max_iter) ∧
      (1 ≤ max_iter → h.head? = some x0) := by
  unfold bfgs at hr
  rw [Option.map_eq_some'] at hr
  obtain ⟨⟨xf, cv, ni, hf⟩, hloop, hout⟩ := hr
  obtain ⟨_, hconv, hcap, hhead⟩ :=
    bfgsLoop_hist fuel em f df m c tol max_iter 0 x0 (eye n) [] xf cv ni hf hloop
  have hrh : r.history = some hf := by
    rw [← hout]; simp [BFGSOutput.add_history, BFGSOutput.init]
  have hrc : r.converged = cv := by
    rw [← hout]; simp [BFGSOutput.add_history, BFGSOutput.init]
  have hri : r.iter = ni := by
    rw [← hout]; simp [BFGSOutput.add_history, BFGSOutput.init]
  refine ⟨hf, hrh, ?_, ?_, ?_⟩
  · intro h
    obtain ⟨_, _, h3⟩ := hconv (hrc ▸ h)
    rw [hri]
    simpa using h3
  · intro h
    obtain ⟨_, h2⟩ := hcap (hrc ▸ h)
    simpa using h2
  · intro h
    obtain ⟨t, ht⟩ := hhead h
    simp [ht]

/-- C5 witness: the `max_iter = 1` run on `exf` from `(1, 1)` with
history saving hits the cap without converging; the contract gives
history length `1` and first entry `(1, 1)`. -/
theorem C5_witness :
    ∃ h, ((BFGSOutput.init (vec2 (-1) (-1)) (exf (vec2 (-1) (-1))) false 1).add_history
        [vec2 1 1]).history = some h ∧
      (((BFGSOutput.init (vec2 (-1) (-1)) (exf (vec2 (-1) (-1))) false 1).add_history
        [vec2 1 1]).converged = true →
        h.length = ((BFGSOutput.init (vec2 (-1) (-1)) (exf (vec2 (-1) (-1))) false 1).add_history
        [vec2 1 1]).iter + 1) ∧
      (((BFGSOutput.init (vec2 (-1) (-1)) (exf (vec2 (-1) (-1))) false 1).add_history
        [vec2 1 1]).converged = false → h.length = 1) ∧
      (1 ≤ 1 → h.head? = some (vec2 1 1)) :=
  C5_history_contract 0 (fun _ => 0) exf exdf (vec2 1 1) .full (1/2) 1 (1/100000) _
    (quadRun1_eq 0 (fun _ => 0))

/-- C5 counterexample: with `max_iter = 0` and `save_history = true` the
run returns an empty history, so the claim's unconditional
"history[0] equals the initial iterate" fails (the empty history has no
first element). -/
theorem C5_counterexample :
    ∃ r, bfgs 0 (fun _ => 0) exf exdf (vec2 1 1) .full (1/2) 0 (1/100000) true = some r ∧
      r.history = some [] ∧
      ¬ ∃ l, r.history = some l ∧ l.head? = some (vec2 1 1) := by
  refine ⟨(BFGSOutput.init (vec2 1 1) (exf (vec2 1 1)) false 0).add_history [], rfl, rfl, ?_⟩
  rintro ⟨l, hl, hh⟩
  simp only [BFGSOutput.add_history, BFGSOutput.init, Option.some.injEq] at hl
  rw [← hl] at hh
  simp at hh

/-- C4 (amended): the result is created once at the end of the run; with
`save_history = true` the history is then attached by a single
`add_history` call — a post-construction mutation of the freshly
constructed output, which carries no history (`history = none`) when it
leaves the constructor; with `save_history = false` the returned object
is exactly the constructed one and is never touched again. -/
theorem C4_result_construction {n : ℕ} (fuel : ℕ) (em : (ℚ → ℚ) → ℚ) (f : Vec n → ℚ)
    (df : Vec n → Vec n) (x0 : Vec n) (m : StepMethod) (c : ℚ) (max_iter : ℕ)
    (tol : ℚ) :
    (∀ r, bfgs fuel em f df x0 m c max_iter tol true = some r →
      ∃ hist, (BFGSOutput.init r.x r.fx r.converged r.iter).history = none ∧
        r = (BFGSOutput.init r.x r.fx r.converged r.iter).add_history hist) ∧
    (∀ r, bfgs fuel em f df x0 m c max_iter tol false = some r →
      r.history = none ∧ r = BFGSOutput.init r.x r.fx r.converged r.iter) := by
  constructor
  · intro r hr
    unfold bfgs at hr
    rw [Option.map_eq_some'] at hr
    obtain ⟨⟨xf, cv, ni, hf⟩, _, hout⟩ := hr
    refine ⟨hf, rfl, ?_⟩
    rw [← hout]
    simp [BFGSOutput.add_history, BFGSOutput.init]
  · intro r hr
    unfold bfgs at hr
    rw [Option.map_eq_some'] at hr
    obtain ⟨⟨xf, cv, ni, hf⟩, _, hout⟩ := hr
    rw [← hout]
    simp [BFGSOutput.add_history, BFGSOutput.init]

/-- C4 witness: for the concrete `max_iter = 1` history-saving run, the
returned object is the constructed output (which had `history = none`)
mutated once by `add_history`. -/
theorem C4_witness :
    ∃ hist,
      (BFGSOutput.init
        ((BFGSOutput.init (vec2 (-1) (-1)) (exf (vec2 (-1) (-1))) false 1).add_history
          [vec2 1 1]).x
        ((BFGSOutput.init (vec2 (-1) (-1)) (exf (vec2 (-1) (-1))) false 1).add_history
          [vec2 1 1]).fx
        ((BFGSOutput.init (vec2 (-1) (-1)) (exf (vec2 (-1) (-1))) false 1).add_history
          [vec2 1 1]).converged
        ((BFGSOutput.init (vec2 (-1) (-1)) (exf (vec2 (-1) (-1))) false 1).add_history
          [vec2 1 1]).iter).history = none ∧
      (BFGSOutput.init (vec2 (-1) (-1)) (exf (vec2 (-1) (-1))) false 1).add_history
          [vec2 1 1] =
        (BFGSOutput.init
          ((BFGSOutput.init (vec2 (-1) (-1)) (exf (vec2 (-1) (-1))) false 1).add_history
            [vec2 1 1]).x
          ((BFGSOutput.init (vec2 (-1) (-1)) (exf (vec2 (-1) (-1))) false 1).add_history
            [vec2 1 1]).fx
          ((BFGSOutput.init (vec2 (-1) (-1)) (exf (vec2 (-1) (-1))) false 1).add_history
            [vec2 1 1]).converged
          ((BFGSOutput.init (vec2 (-1) (-1)) (exf (vec2 (-1) (-1))) false 1).add_history
            [vec2 1 1]).iter).add_history hist :=
  (C4_result_construction 0 (fun _ => 0) exf exdf (vec2 1 1) .full (1/2) 1 (1/100000)).1 _
    (quadRun1_eq 0 (fun _ => 0))

/-- C4 counterexample: the claim as stated — history attached at
construction, no mutation afterwards — is false: a history-saving run
returns an object whose `history` attribute is set, yet the constructor
`BFGSOutput.__init__` never sets a history, so the returned object cannot
be a once-constructed, never-mutated output. -/
theorem C4_counterexample :
    ∃ r, bfgs 0 (fun _ => 0) exf exdf (vec2 1 1) .full (1/2) 0 (1/100000) true = some r ∧
      r.history ≠ none ∧
      ∀ (x : Vec 2) (fx : ℚ) (cv : Bool) (it : ℕ), r ≠ BFGSOutput.init x fx cv it := by
  refine ⟨(BFGSOutput.init (vec2 1 1) (exf (vec2 1 1)) false 0).add_history [], rfl, ?_, ?_⟩
  · simp [BFGSOutput.add_history, BFGSOutput.init]
  · intro x fx cv it h
    have := congrArg BFGSOutput.history h
    simp [BFGSOutput.add_history, BFGSOutput.init] at this

/-! ### Claim C6: Armijo backtracking -/

lemma armijoLoop_succ {n : ℕ} (f : Vec n → ℚ) (df : Vec n → Vec n)
    (x d : Vec n) (c : ℚ) (fuel : ℕ) (alpha : ℚ) :
    armijoLoop f df x d c (fuel + 1) alpha =
      (if f (vadd x (smulV alpha d)) > f x + c * alpha * dot (df x) d then
        armijoLoop f df x d c fuel (alpha * (1 / 2))
      else some alpha) := rfl

/-- If the sufficient-decrease condition first holds at `alpha = (1/2)^ks`
(it fails at every smaller exponent), the backtracking loop started at
`(1/2)^m` for `m ≤ ks` returns `(1/2)^ks`, given fuel for the remaining
halvings. -/
lemma armijoLoop_eq_of_first {n : ℕ} (f : Vec n → ℚ) (df : Vec n → Vec n)
    (x d : Vec n) (c : ℚ) (ks : ℕ)
    (hks : ¬ (f (vadd x (smulV ((1/2 : ℚ)^ks) d)) > f x + c * (1/2)^ks * dot (df x) d))
    (hmin : ∀ j < ks, f (vadd x (smulV ((1/2 : ℚ)^j) d)) > f x + c * (1/2)^j * dot (df x) d) :
    ∀ (dd m fuel : ℕ), m + dd = ks → dd < fuel →
      armijoLoop f df x d c fuel ((1/2)^m) = some ((1/2)^ks) := by
  intro dd
  induction dd with
  | zero =>
    intro m fuel hm hf
    obtain ⟨fuel, rfl⟩ : ∃ g, fuel = g + 1 := ⟨fuel - 1, by omega⟩
    have hm' : m = ks := by omega
    subst hm'
    rw [armijoLoop_succ, if_neg hks]
  | succ dd ih =>
    intro m fuel hm hf
    obtain ⟨fuel, rfl⟩ : ∃ g, fuel = g + 1 := ⟨fuel - 1, by omega⟩
    have hmlt : m < ks := by omega
    rw [armijoLoop_succ, if_pos (hmin m hmlt), ← pow_succ]
    exact ih (m + 1) fuel (by omega) (by omega)

/-- C6: with method Armijo, whenever some `alpha = 2^-k` satisfies the
sufficient-decrease condition, the selector terminates (given fuel beyond
`k`) and returns `2^-ks` for the smallest such exponent `ks` — it starts
at `1` and halves exactly while the condition fails — and the returned
step satisfies the sufficient-decrease inequality. -/
theorem C6_armijo_backtracking {n : ℕ} (em : (ℚ → ℚ) → ℚ) (f : Vec n → ℚ)
    (df : Vec n → Vec n) (x d : Vec n) (c : ℚ) (k : ℕ)
    (hk : ¬ (f (vadd x (smulV ((1/2 : ℚ)^k) d)) > f x + c * (1/2)^k * dot (df x) d)) :
    ∃ ks, ks ≤ k ∧
      (∀ j < ks, f (vadd x (smulV ((1/2 : ℚ)^j) d)) > f x + c * (1/2)^j * dot (df x) d) ∧
      ¬ (f (vadd x (smulV ((1/2 : ℚ)^ks) d)) > f x + c * (1/2)^ks * dot (df x) d) ∧
      ∀ fuel, k < fuel → bfgs_step fuel em f df x d .armijo c = some ((1/2)^ks) := by
  have hex : ∃ j, ¬ (f (vadd x (smulV ((1/2 : ℚ)^j) d)) > f x + c * (1/2)^j * dot (df x) d) :=
    ⟨k, hk⟩
  refine ⟨Nat.find hex, Nat.find_min' hex hk, ?_, Nat.find_spec hex, ?_⟩
  · intro j hj
    have := Nat.find_min hex hj
    exact not_not.1 this
  · intro fuel hf
    show armijoLoop f df x d c fuel 1 = some ((1/2) ^ Nat.find hex)
    have h0 := armijoLoop_eq_of_first f df x d c (Nat.find hex) (Nat.find_spec hex)
      (fun j hj => not_not.1 (Nat.find_min hex hj)) (Nat.find hex) 0 fuel (by omega)
      (by have := Nat.find_min' hex hk; omega)
    rw [pow_zero] at h0
    exact h0

/-- C6 witness: for `f(v) = v0^2` at `x = (1)` with direction `(-2)` and
`armijo_param = 1/2`, the condition holds at `alpha = 1/2` (exponent 1)
but not at `alpha = 1`, so the selector returns `1/2`. -/
theorem C6_witness :
    ∃ ks, ks ≤ 1 ∧
      (∀ j < ks, ex1f (vadd (vec1 1) (smulV ((1/2 : ℚ)^j) (vec1 (-2)))) >
        ex1f (vec1 1) + (1/2) * (1/2)^j * dot (ex1df (vec1 1)) (vec1 (-2))) ∧
      ¬ (ex1f (vadd (vec1 1) (smulV ((1/2 : ℚ)^ks) (vec1 (-2)))) >
        ex1f (vec1 1) + (1/2) * (1/2)^ks * dot (ex1df (vec1 1)) (vec1 (-2))) ∧
      ∀ fuel, 1 < fuel →
        bfgs_step fuel (fun _ => 0) ex1f ex1df (vec1 1) (vec1 (-2)) .armijo (1/2) =
          some ((1/2)^ks) :=
  C6_armijo_backtracking (fun _ => 0) ex1f ex1df (vec1 1) (vec1 (-2)) (1/2) 1
    (by norm_num [ex1f, ex1df, vadd, smulV, dot, vec1, List.finRange])

/-! ### Claim C7: faithful termination reporting -/

/-- If the tolerance check fails along the trajectory before `i` and each
of those steps succeeds, the loop entered at index `it ≤ i` stops with the
converged state `(xs i, true, i)` as soon as the check holds at `i`. -/
lemma bfgsLoop_conv_of_traj {n : ℕ} (fuel : ℕ) (em : (ℚ → ℚ) → ℚ) (f : Vec n → ℚ)
    (df : Vec n → Vec n) (m : StepMethod) (c tol : ℚ) (sh : Bool)
    (xs : ℕ → Vec n) (Hs : ℕ → Mat n) :
    ∀ (k it : ℕ) (hist : List (Vec n)) (i : ℕ), it ≤ i → i < it + k →
      (∀ j, it ≤ j → j < i → ¬ normLt (df (xs j)) tol ∧
        bfgsIter fuel em f df m c j (xs j) (Hs j) = some (xs (j+1), Hs (j+1))) →
      normLt (df (xs i)) tol →
      ∃ hist', bfgsLoop fuel em f df m c tol sh it k (xs it) (Hs it) hist =
        some (xs i, true, i, hist') := by
  intro k
  induction k with
  | zero => intro it hist i h1 h2 _ _; omega
  | succ k ih =>
    intro it hist i h1 h2 htraj hconv
    rcases eq_or_lt_of_le h1 with rfl | hlt
    · exact ⟨_, bfgsLoop_stop fuel em f df m c tol sh it k (xs it) (Hs it) hist hconv⟩
    · have hj := htraj it le_rfl hlt
      rw [bfgsLoop_step fuel em f df m c tol sh it k (xs it) (xs (it+1)) (Hs it) (Hs (it+1))
        hist hj.1 hj.2]
      exact ih (it + 1) _ i hlt (by omega) (fun j ha hb => htraj j (by omega) hb) hconv

/-- If the tolerance check fails at every index of the remaining window
and every step succeeds, the loop runs to the cap and reports
`(xs (it+k), false, it+k)`. -/
lemma bfgsLoop_cap_of_traj {n : ℕ} (fuel : ℕ) (em : (ℚ → ℚ) → ℚ) (f : Vec n → ℚ)
    (df : Vec n → Vec n) (m : StepMethod) (c tol : ℚ) (sh : Bool)
    (xs : ℕ → Vec n) (Hs : ℕ → Mat n) :
    ∀ (k it : ℕ) (hist : List (Vec n)),
      (∀ j, it ≤ j → j < it + k → ¬ normLt (df (xs j)) tol ∧
        bfgsIter fuel em f df m c j (xs j) (Hs j) = some (xs (j+1), Hs (j+1))) →
      ∃ hist', bfgsLoop fuel em f df m c tol sh it k (xs it) (Hs it) hist =
        some (xs (it + k), false, it + k, hist') := by
  intro k
  induction k with
  | zero =>
    intro it hist _
    exact ⟨hist, bfgsLoop_zero fuel em f df m c tol sh it (xs it) (Hs it) hist⟩
  | succ k ih =>
    intro it hist htraj
    have hj := htraj it le_rfl (by omega)
    rw [bfgsLoop_step fuel em f df m c tol sh it k (xs it) (xs (it+1)) (Hs it) (Hs (it+1))
      hist hj.1 hj.2]
    obtain ⟨hist', h⟩ := ih (it + 1) _ (fun j ha hb => htraj j (by omega) (by omega))
    have hek : it + 1 + k = it + (k + 1) := by omega
    rw [hek] at h
    exact ⟨hist', h⟩

/-- C7: the run reports termination faithfully.  If the gradient-norm
check first succeeds at some index `i < max_iter` along the trajectory
(`xs`, `Hs` being the iterates and inverse-Hessian approximations, with
every earlier check failing and every earlier step succeeding), the run
returns `converged = true`, `n_iter = i`, and the iterate `xs i` itself —
no further step is taken from it.  If the check fails at every index
below `max_iter`, the run returns `converged = false` and
`n_iter = max_iter`. -/
theorem C7_termination_reporting {n : ℕ} (fuel : ℕ) (em : (ℚ → ℚ) → ℚ) (f : Vec n → ℚ)
    (df : Vec n → Vec n) (m : StepMethod) (c tol : ℚ) (max_iter : ℕ) (sh : Bool)
    (xs : ℕ → Vec n) (Hs : ℕ → Mat n) (hH0 : Hs 0 = eye n) :
    (∀ i < max_iter,
      (∀ j < i, ¬ normLt (df (xs j)) tol ∧
        bfgsIter fuel em f df m c j (xs j) (Hs j) = some (xs (j+1), Hs (j+1))) →
      normLt (df (xs i)) tol →
      ∃ r, bfgs fuel em f df (xs 0) m c max_iter tol sh = some r ∧
        r.converged = true ∧ r.iter = i ∧ r.x = xs i) ∧
    ((∀ j < max_iter, ¬ normLt (df (xs j)) tol ∧
        bfgsIter fuel em f df m c j (xs j) (Hs j) = some (xs (j+1), Hs (j+1))) →
      ∃ r, bfgs fuel em f df (xs 0) m c max_iter tol sh = some r ∧
        r.converged = false ∧ r.iter = max_iter ∧ r.x = xs max_iter) := by
  constructor
  · intro i hi htraj hconv
    obtain ⟨hist', hloop⟩ := bfgsLoop_conv_of_traj fuel em f df m c tol sh xs Hs
      max_iter 0 [] i (Nat.zero_le i) (by omega) (fun j _ hb => htraj j hb) hconv
    rw [hH0] at hloop
    cases sh with
    | false =>
      refine ⟨BFGSOutput.init (xs i) (f (xs i)) true i, ?_, rfl, rfl, rfl⟩
      unfold bfgs
      rw [hloop, Option.map_some']
      rfl
    | true =>
      refine ⟨(BFGSOutput.init (xs i) (f (xs i)) true i).add_history hist', ?_, rfl, rfl, rfl⟩
      unfold bfgs
      rw [hloop, Option.map_some']
      rfl
  · intro htraj
    obtain ⟨hist', hloop⟩ := bfgsLoop_cap_of_traj fuel em f df m c tol sh xs Hs
      max_iter 0 [] (fun j _ hb => htraj j (by omega))
    rw [hH0] at hloop
    rw [Nat.zero_add] at hloop
    cases sh with
    | false =>
      refine ⟨BFGSOutput.init (xs max_iter) (f (xs max_iter)) false max_iter, ?_, rfl, rfl, rfl⟩
      unfold bfgs
      rw [hloop, Option.map_some']
      rfl
    | true =>
      refine ⟨(BFGSOutput.init (xs max_iter) (f (xs max_iter)) false max_iter).add_history hist',
        ?_, rfl, rfl, rfl⟩
      unfold bfgs
      rw [hloop, Option.map_some']
      rfl

/-- C7 witness: on the concrete quadratic run from `(1, 1)` the check
fails at iterations 0 and 1, both steps succeed, and the check holds at
iteration `2 < 20`, so the run reports `converged = true`, `n_iter = 2`,
final iterate the origin. -/
theorem C7_witness :
    ∃ r, bfgs 0 (fun _ => 0) exf exdf (vec2 1 1) .full (1/2) 20 (1/100000) false = some r ∧
      r.converged = true ∧ r.iter = 2 ∧ r.x = vec2 0 0 := by
  have h := (C7_termination_reporting 0 (fun _ => 0) exf exdf .full (1/2) (1/100000) 20 false
      (fun j => if j = 0 then vec2 1 1 else if j = 1 then vec2 (-1) (-1) else vec2 0 0)
      (fun j => if j = 0 then eye 2 else mat2 (1/2) 0 0 (1/2)) rfl).1 2 (by norm_num)
    (by
      intro j hj
      interval_cases j
      · exact ⟨by simpa using check0, by simpa using iter0_eq 0 (fun _ => 0)⟩
      · exact ⟨by simpa using check1, by simpa using iter1_eq 0 (fun _ => 0)⟩)
    (by simpa using check2)
  simpa using h

/-! ### Claim C8: degenerate secant pair and non-finite propagation -/

lemma eadd_none_left (a : EScalar) : eadd none a = none := rfl

lemma eadd_none_right (a : EScalar) : eadd a none = none := by cases a <;> rfl

lemma emul_none_left (a : EScalar) : emul none a = none := rfl

lemma emul_none_right (a : EScalar) : emul a none = none := by cases a <;> rfl

lemma esub_none_right (a : EScalar) : esub a none = none := by cases a <;> rfl

/-- a sum with a non-finite summand is non-finite. -/
lemma esum_of_mem_none : ∀ {l : List EScalar}, none ∈ l → esum l = none := by
  intro l h
  induction l with
  | nil => cases h
  | cons a t ih =>
    rcases List.mem_cons.1 h with rfl | ht
    · show eadd none (esum t) = none
      exact eadd_none_left _
    · show eadd a (esum t) = none
      rw [ih ht]
      exact eadd_none_right a

/-- with a degenerate secant pair every entry of the updated inverse
Hessian is non-finite. -/
lemma bfgsUpdateE_none {n : ℕ} (p q : VecE n) (H : MatE n)
    (h : dotE p q = some 0) : ∀ i j, bfgsUpdateE p q H i j = none := by
  intro i j
  simp only [bfgsUpdateE, matMulE]
  apply esum_of_mem_none
  refine List.mem_map.2 ⟨j, List.mem_finRange j, ?_⟩
  rw [h]
  have hrho : ediv (some 1) (some 0) = none := by simp [ediv]
  rw [hrho, emul_none_left, esub_none_right, emul_none_right]

/-- length-1 `EScalar` vector. -/
def vecE1 (a : EScalar) : VecE 1 := fun _ => a

/-- 1×1 `EScalar` matrix. -/
def matE1 (a : EScalar) : MatE 1 := fun _ _ => a

lemma bfgsLoopE_zero {n : ℕ} (fuel : ℕ) (em : (ℚ → EScalar) → EScalar)
    (f : VecE n → EScalar) (df : VecE n → VecE n) (m : StepMethod) (c tol : ℚ)
    (sh : Bool) (iter : ℕ) (x : VecE n) (H : MatE n) (hist : List (VecE n)) :
    bfgsLoopE fuel em f df m c tol sh iter 0 x H hist = some (x, false, iter, hist) := rfl

lemma bfgsLoopE_succ {n : ℕ} (fuel : ℕ) (em : (ℚ → EScalar) → EScalar)
    (f : VecE n → EScalar) (df : VecE n → VecE n) (m : StepMethod) (c tol : ℚ)
    (sh : Bool) (iter k : ℕ) (x : VecE n) (H : MatE n) (hist : List (VecE n)) :
    bfgsLoopE fuel em f df m c tol sh iter (k + 1) x H hist =
      (if normLtE (df x) tol then some (x, true, iter, if sh then hist ++ [x] else hist)
       else (bfgsIterE fuel em f df m c iter x H).bind fun s =>
         bfgsLoopE fuel em f df m c tol sh (iter + 1) k s.1 s.2
           (if sh then hist ++ [x] else hist)) := rfl

lemma bfgsLoopE_step {n : ℕ} (fuel : ℕ) (em : (ℚ → EScalar) → EScalar)
    (f : VecE n → EScalar) (df : VecE n → VecE n) (m : StepMethod) (c tol : ℚ)
    (sh : Bool) (iter k : ℕ) (x x' : VecE n) (H H' : MatE n) (hist : List (VecE n))
    (hc : normLtE (df x) tol = false)
    (hi : bfgsIterE fuel em f df m c iter x H = some (x', H')) :
    bfgsLoopE fuel em f df m c tol sh iter (k + 1) x H hist =
      bfgsLoopE fuel em f df m c tol sh (iter + 1) k x' H'
        (if sh then hist ++ [x] else hist) := by
  rw [bfgsLoopE_succ, if_neg (by simp [hc]), hi, Option.some_bind]

/-- the constant gradient of `exlinE` never passes the norm check. -/
lemma checkE_const (v : VecE 1) : normLtE (exlindfE v) (1/100000) = false := by
  have h : sqNormE (exlindfE v) = some 1 := by
    norm_num [sqNormE, dotE, esum, eadd, emul, exlindfE, List.finRange]
  simp only [normLtE, h]
  exact decide_eq_false (by norm_num)

lemma updE1_none (p : VecE 1)
    (hpq : dotE p (vecE1 (some 0)) = none) :
    bfgsUpdateE p (vecE1 (some 0)) (matE1 none) = matE1 none := by
  funext i j
  fin_cases i
  fin_cases j
  simp [bfgsUpdateE, matMulE, hpq, ediv, esub_none_right, emul_none_left, emul_none_right,
    esum, eadd, List.finRange, matE1]

/-- iteration 0 of the degenerate run: the step from `1` to `0` produces
`p = -1`, `q = 0`, `dot(p, q) = 0`; the rescale divides `0/0` and the
update divides `1/0`, so `H_inv` becomes entirely non-finite. -/
lemma iterE0_eq (fuel : ℕ) (em : (ℚ → EScalar) → EScalar) :
    bfgsIterE fuel em exlinE exlindfE .full (1/2) 0 (vecE1 (some 1)) (eyeE 1) =
      some (vecE1 (some 0), matE1 none) := by
  have hd : negVE (matVecE (eyeE 1) (exlindfE (vecE1 (some 1)))) = vecE1 (some (-1)) := by
    funext i
    fin_cases i
    norm_num [negVE, matVecE, dotE, esum, eadd, emul, eneg, eyeE, vecE1, exlindfE,
      List.finRange]
  have hx : vaddE (vecE1 (some 1)) (smulVE (some 1) (vecE1 (some (-1)))) = vecE1 (some 0) := by
    funext i
    fin_cases i
    norm_num [vaddE, smulVE, eadd, emul, vecE1]
  have hp : vsubE (vecE1 (some 0)) (vecE1 (some 1)) = vecE1 (some (-1)) := by
    funext i
    fin_cases i
    norm_num [vsubE, esub, vecE1]
  have hq : vsubE (exlindfE (vecE1 (some 0))) (exlindfE (vecE1 (some 1))) = vecE1 (some 0) := by
    funext i
    fin_cases i
    norm_num [vsubE, esub, exlindfE, vecE1]
  have hpq : dotE (vecE1 (some (-1))) (vecE1 (some 0)) = some 0 := by
    norm_num [dotE, esum, eadd, emul, vecE1, List.finRange]
  have hqq : dotE (vecE1 (some 0)) (vecE1 (some 0)) = some 0 := by
    norm_num [dotE, esum, eadd, emul, vecE1, List.finRange]
  have hresc : smulME (ediv (some 0) (some 0)) (eyeE 1) = matE1 none := by
    funext i j
    fin_cases i
    fin_cases j
    simp [smulME, ediv, emul_none_left, matE1]
  have hupd : bfgsUpdateE (vecE1 (some (-1))) (vecE1 (some 0)) (matE1 none) = matE1 none := by
    funext i j
    fin_cases i
    fin_cases j
    simp [bfgsUpdateE, matMulE, hpq, ediv, esub_none_right, emul_none_left, emul_none_right,
      esum, eadd, List.finRange, matE1]
  simp only [bfgsIterE, bfgs_stepE, Option.map_some']
  rw [hd, hx, hp, hq, if_pos trivial, hpq, hqq, hresc, hupd]

/-- iteration 1: the non-finite `H_inv` poisons the direction and thus the
next iterate. -/
lemma iterE1_eq (fuel : ℕ) (em : (ℚ → EScalar) → EScalar) :
    bfgsIterE fuel em exlinE exlindfE .full (1/2) 1 (vecE1 (some 0)) (matE1 none) =
      some (vecE1 none, matE1 none) := by
  have hd : negVE (matVecE (matE1 none) (exlindfE (vecE1 (some 0)))) = vecE1 none := by
    funext i
    fin_cases i
    simp [negVE, matVecE, dotE, esum, eadd, emul_none_left, eneg, matE1, vecE1, exlindfE,
      List.finRange]
  have hx : vaddE (vecE1 (some 0)) (smulVE (some 1) (vecE1 none)) = vecE1 none := by
    funext i
    fin_cases i
    simp [vaddE, smulVE, eadd_none_right, emul_none_right, vecE1]
  have hp : vsubE (vecE1 none) (vecE1 (some 0)) = vecE1 none := by
    funext i
    fin_cases i
    simp [vsubE, esub, vecE1]
  have hq : vsubE (exlindfE (vecE1 none)) (exlindfE (vecE1 (some 0))) = vecE1 (some 0) := by
    funext i
    fin_cases i
    norm_num [vsubE, esub, exlindfE, vecE1]
  have hpq : dotE (vecE1 none) (vecE1 (some 0)) = none := by
    simp [dotE, esum, emul_none_left, eadd_none_left, vecE1, List.finRange]
  simp only [bfgsIterE, bfgs_stepE, Option.map_some']
  rw [hd, hx, hp, hq, if_neg Nat.one_ne_zero, updE1_none (vecE1 none) hpq]

/-- iteration 2: the iterate stays non-finite. -/
lemma iterE2_eq (fuel : ℕ) (em : (ℚ → EScalar) → EScalar) :
    bfgsIterE fuel em exlinE exlindfE .full (1/2) 2 (vecE1 none) (matE1 none) =
      some (vecE1 none, matE1 none) := by
  have hd : negVE (matVecE (matE1 none) (exlindfE (vecE1 none))) = vecE1 none := by
    funext i
    fin_cases i
    simp [negVE, matVecE, dotE, esum, eadd, emul_none_left, eneg, matE1, vecE1, exlindfE,
      List.finRange]
  have hx : vaddE (vecE1 none) (smulVE (some 1) (vecE1 none)) = vecE1 none := by
    funext i
    fin_cases i
    simp [vaddE, smulVE, eadd_none_left, emul_none_right, vecE1]
  have hp : vsubE (vecE1 none) (vecE1 none) = vecE1 none := by
    funext i
    fin_cases i
    simp [vsubE, esub, vecE1]
  have hq : vsubE (exlindfE (vecE1 none)) (exlindfE (vecE1 none)) = vecE1 (some 0) := by
    funext i
    fin_cases i
    norm_num [vsubE, esub, exlindfE, vecE1]
  have hpq : dotE (vecE1 none) (vecE1 (some 0)) = none := by
    simp [dotE, esum, emul_none_left, eadd_none_left, vecE1, List.finRange]
  simp only [bfgsIterE, bfgs_stepE, Option.map_some']
  rw [hd, hx, hp, hq, if_neg (by norm_num), updE1_none (vecE1 none) hpq]

/-- the degenerate run itself: three iterations, no crash, non-finite
final iterate and objective value, `converged = false`. -/
lemma degRun_eq (fuel : ℕ) (em : (ℚ → EScalar) → EScalar) :
    bfgsE fuel em exlinE exlindfE (vecE1 (some 1)) .full (1/2) 3 (1/100000) false =
      some { x := vecE1 none, fx := none, converged := false, iter := 3 } := by
  simp only [bfgsE]
  rw [bfgsLoopE_step fuel em exlinE exlindfE .full (1/2) (1/100000) false 0 2 _ _ _ _ _
        (checkE_const _) (iterE0_eq fuel em),
      bfgsLoopE_step fuel em exlinE exlindfE .full (1/2) (1/100000) false 1 1 _ _ _ _ _
        (checkE_const _) (iterE1_eq fuel em),
      bfgsLoopE_step fuel em exlinE exlindfE .full (1/2) (1/100000) false 2 0 _ _ _ _ _
        (checkE_const _) (iterE2_eq fuel em),
      bfgsLoopE_zero]
  rfl

/-- C8: a secant pair with `dot(p, q) = 0` makes `rho = 1 / dot(p, q)`
non-finite and every entry of the updated `H_inv` non-finite; and on a
concrete objective with constant gradient (degenerate from iteration 0)
the run still returns a constructed result — no crash, no detection, no
recovery — whose subsequent iterates, final iterate and objective value
are non-finite and whose `converged` flag is false. -/
theorem C8_degenerate_secant :
    (∀ (n : ℕ) (p q : VecE n) (H : MatE n), dotE p q = some 0 →
      ediv (some 1) (dotE p q) = none ∧ ∀ i j, bfgsUpdateE p q H i j = none) ∧
    (∀ (fuel : ℕ) (em : (ℚ → EScalar) → EScalar),
      ∃ r, bfgsE fuel em exlinE exlindfE (vecE1 (some 1)) .full (1/2) 3 (1/100000) false =
          some r ∧
        r.x = vecE1 none ∧ r.fx = none ∧ r.converged = false ∧ r.iter = 3) := by
  constructor
  · intro n p q H h
    refine ⟨by rw [h]; simp [ediv], bfgsUpdateE_none p q H h⟩
  · intro fuel em
    exact ⟨_, degRun_eq fuel em, rfl, rfl, rfl, rfl⟩

/-- C8 witness: the degenerate secant pair `p = q = (0)` has
`dot(p, q) = 0`, giving a non-finite `rho` and an all-non-finite update of
the identity. -/
theorem C8_witness :
    dotE (vecE1 (some 0)) (vecE1 (some 0)) = some 0 ∧
    (ediv (some 1) (dotE (vecE1 (some 0)) (vecE1 (some 0))) = none ∧
      ∀ i j, bfgsUpdateE (vecE1 (some 0)) (vecE1 (some 0)) (eyeE 1) i j = none) := by
  have h : dotE (vecE1 (some 0)) (vecE1 (some 0)) = some 0 := by
    norm_num [dotE, esum, eadd, emul, vecE1, List.finRange]
  exact ⟨h, C8_degenerate_secant.1 1 (vecE1 (some 0)) (vecE1 (some 0)) (eyeE 1) h⟩

end BFGSVerify
